import Mathlib

set_option maxRecDepth 100000

/-!
Verification of the openmpt-charset checker (src/openmpt-charset.cpp).

The development shallowly embeds the program's core components over
`List Nat` (byte strings and Unicode scalar sequences):

* `cp437_table` / `cp437_to_unicode` — the legacy-charset switch of
  lines 61-108, written as the finite association it denotes (each
  `case x: return y;` is the pair `(x, y)`; the `default` branch is the
  `none` fallback of the lookup).
* `utf8_to_codepoints` / `codepoints_to_utf8` — the codepoint codec.
  The source (lines 45-59) delegates to the C++ standard library's
  `std::wstring_convert` / `std::codecvt_utf8`, whose code is outside
  this repository, so both are modelled from the spec's codec contract:
  strict UTF-8, rejecting malformed bytes, overlong forms, surrogates
  and out-of-range scalars.
* `split` — the `std::getline` loop of lines 110-121.  `std::getline`
  extracts the segment before each delimiter (consuming the delimiter),
  and a final call that extracts no character fails, so an empty input
  yields no token and an empty trailing segment after a final delimiter
  is dropped.
* `get_grapheme_count` — the byte walk of lines 123-142, with the
  C++ iterator position made explicit; the loop body is fuelled (any
  fuel of at least `s.length` steps is exact, which is proved below as
  `graphemeLoopF_fuel`).  The C++ loop only tests `it != s.end()`, so a
  step past the end (possible for a truncated trailing lead byte) is
  undefined behaviour there; the model records the final index so that
  overrunning is observable as `grapheme_scan_end s > s.length`.
* `compare_and_report` / `check_messages` — lines 144-187, producing
  the printed two-column rows (header and stream output omitted); a
  thrown exception is an `Except.error`.
* `process_file` / `run` — lines 189-208.  The module parser is the
  external libopenmpt collaborator, so a file is modelled by its parse
  outcome: a parse failure or the extracted raw message bytes.  The
  `catch (const std::exception &)` handler of line 196 receives every
  exception of the body, which `catchBoundary` models; `runBodies`
  is `main`'s loop over per-file body outcomes.
-/

/-- The legacy-charset switch statement of `cp437_to_unicode`
(src/openmpt-charset.cpp lines 63-107) as the association list it
denotes: one pair per `case`.  The case for 0x0A is commented out in the
source and is therefore absent here. -/
def cp437_table : List (Nat × Nat) := [
  (0x00, 0x2400), (0x01, 0x263A), (0x02, 0x263B), (0x03, 0x2665),
  (0x04, 0x2666), (0x05, 0x2663), (0x06, 0x2660), (0x07, 0x2022),
  (0x08, 0x25D8), (0x09, 0x25CB), (0x0B, 0x2642),
  (0x0C, 0x2640), (0x0D, 0x266A), (0x0E, 0x266B), (0x0F, 0x263C),
  (0x10, 0x25BA), (0x11, 0x25C4), (0x12, 0x2195), (0x13, 0x203C),
  (0x14, 0x00B6), (0x15, 0x00A7), (0x16, 0x25AC), (0x17, 0x21A8),
  (0x18, 0x2191), (0x19, 0x2193), (0x1A, 0x2192), (0x1B, 0x2190),
  (0x1C, 0x221F), (0x1D, 0x2194), (0x1E, 0x25B2), (0x1F, 0x25BC),
  (0x7F, 0x2302),
  (0x80, 0x00C7), (0x81, 0x00FC), (0x82, 0x00E9), (0x83, 0x00E2),
  (0x84, 0x00E4), (0x85, 0x00E0), (0x86, 0x00E5), (0x87, 0x00E7),
  (0x88, 0x00EA), (0x89, 0x00EB), (0x8A, 0x00E8), (0x8B, 0x00EF),
  (0x8C, 0x00EE), (0x8D, 0x00EC), (0x8E, 0x00C4), (0x8F, 0x00C5),
  (0x90, 0x00C9), (0x91, 0x00E6), (0x92, 0x00C6), (0x93, 0x00F4),
  (0x94, 0x00F6), (0x95, 0x00F2), (0x96, 0x00FB), (0x97, 0x00F9),
  (0x98, 0x00FF), (0x99, 0x00D6), (0x9A, 0x00DC), (0x9B, 0x00A2),
  (0x9C, 0x00A3), (0x9D, 0x00A5), (0x9E, 0x20A7), (0x9F, 0x0192),
  (0xA0, 0x00E1), (0xA1, 0x00ED), (0xA2, 0x00F3), (0xA3, 0x00FA),
  (0xA4, 0x00F1), (0xA5, 0x00D1), (0xA6, 0x00AA), (0xA7, 0x00BA),
  (0xA8, 0x00BF), (0xA9, 0x2310), (0xAA, 0x00AC), (0xAB, 0x00BD),
  (0xAC, 0x00BC), (0xAD, 0x00A1), (0xAE, 0x00AB), (0xAF, 0x00BB),
  (0xB0, 0x2591), (0xB1, 0x2592), (0xB2, 0x2593), (0xB3, 0x2502),
  (0xB4, 0x2524), (0xB5, 0x2561), (0xB6, 0x2562), (0xB7, 0x2556),
  (0xB8, 0x2555), (0xB9, 0x2563), (0xBA, 0x2551), (0xBB, 0x2557),
  (0xBC, 0x255D), (0xBD, 0x255C), (0xBE, 0x255B), (0xBF, 0x2510),
  (0xC0, 0x2514), (0xC1, 0x2534), (0xC2, 0x252C), (0xC3, 0x251C),
  (0xC4, 0x2500), (0xC5, 0x253C), (0xC6, 0x255E), (0xC7, 0x255F),
  (0xC8, 0x255A), (0xC9, 0x2554), (0xCA, 0x2569), (0xCB, 0x2566),
  (0xCC, 0x2560), (0xCD, 0x2550), (0xCE, 0x256C), (0xCF, 0x2567),
  (0xD0, 0x2568), (0xD1, 0x2564), (0xD2, 0x2565), (0xD3, 0x2559),
  (0xD4, 0x2558), (0xD5, 0x2552), (0xD6, 0x2553), (0xD7, 0x256B),
  (0xD8, 0x256A), (0xD9, 0x2518), (0xDA, 0x250C), (0xDB, 0x2588),
  (0xDC, 0x2584), (0xDD, 0x258C), (0xDE, 0x2590), (0xDF, 0x2580),
  (0xE0, 0x03B1), (0xE1, 0x00DF), (0xE2, 0x0393), (0xE3, 0x03C0),
  (0xE4, 0x03A3), (0xE5, 0x03C3), (0xE6, 0x00B5), (0xE7, 0x03C4),
  (0xE8, 0x03A6), (0xE9, 0x0398), (0xEA, 0x03A9), (0xEB, 0x03B4),
  (0xEC, 0x221E), (0xED, 0x03C6), (0xEE, 0x03B5), (0xEF, 0x2229),
  (0xF0, 0x2261), (0xF1, 0x00B1), (0xF2, 0x2265), (0xF3, 0x2264),
  (0xF4, 0x2320), (0xF5, 0x2321), (0xF6, 0x00F7), (0xF7, 0x2248),
  (0xF8, 0x00B0), (0xF9, 0x2219), (0xFA, 0x00B7), (0xFB, 0x221A),
  (0xFC, 0x207F), (0xFD, 0x00B2), (0xFE, 0x25A0), (0xFF, 0x00A0)]

/-- `cp437_to_unicode` (src lines 61-108): the `switch` returns the
matching case's value, and `default` returns the input unchanged. -/
def cp437_to_unicode (c : Nat) : Nat :=
  match cp437_table.lookup c with
  | some u => u
  | none => c

/-- The 128 documented byte-to-scalar pairs for 0x80-0xFF, written from
the spec's fixed external standard (code page 437, upper half), indexed
by `b - 0x80`.  This is the reference the implementation's table is
compared against in claim C1. -/
def cp437_high_documented : List Nat := [
  0x00C7, 0x00FC, 0x00E9, 0x00E2, 0x00E4, 0x00E0, 0x00E5, 0x00E7,
  0x00EA, 0x00EB, 0x00E8, 0x00EF, 0x00EE, 0x00EC, 0x00C4, 0x00C5,
  0x00C9, 0x00E6, 0x00C6, 0x00F4, 0x00F6, 0x00F2, 0x00FB, 0x00F9,
  0x00FF, 0x00D6, 0x00DC, 0x00A2, 0x00A3, 0x00A5, 0x20A7, 0x0192,
  0x00E1, 0x00ED, 0x00F3, 0x00FA, 0x00F1, 0x00D1, 0x00AA, 0x00BA,
  0x00BF, 0x2310, 0x00AC, 0x00BD, 0x00BC, 0x00A1, 0x00AB, 0x00BB,
  0x2591, 0x2592, 0x2593, 0x2502, 0x2524, 0x2561, 0x2562, 0x2556,
  0x2555, 0x2563, 0x2551, 0x2557, 0x255D, 0x255C, 0x255B, 0x2510,
  0x2514, 0x2534, 0x252C, 0x251C, 0x2500, 0x253C, 0x255E, 0x255F,
  0x255A, 0x2554, 0x2569, 0x2566, 0x2560, 0x2550, 0x256C, 0x2567,
  0x2568, 0x2564, 0x2565, 0x2559, 0x2558, 0x2552, 0x2553, 0x256B,
  0x256A, 0x2518, 0x250C, 0x2588, 0x2584, 0x258C, 0x2590, 0x2580,
  0x03B1, 0x00DF, 0x0393, 0x03C0, 0x03A3, 0x03C3, 0x00B5, 0x03C4,
  0x03A6, 0x0398, 0x03A9, 0x03B4, 0x221E, 0x03C6, 0x03B5, 0x2229,
  0x2261, 0x00B1, 0x2265, 0x2264, 0x2320, 0x2321, 0x00F7, 0x2248,
  0x00B0, 0x2219, 0x00B7, 0x221A, 0x207F, 0x00B2, 0x25A0, 0x00A0]

/-- A Unicode scalar value: in range and not a surrogate. -/
def validScalar (c : Nat) : Prop :=
  c < 0x110000 ∧ (c < 0xD800 ∨ 0xDFFF < c)

instance validScalar.instDecidable : DecidablePred validScalar := fun c => by
  unfold validScalar; infer_instance

/-- Modelled from the spec: the UTF-8 serialisation of one scalar value
(the encoding direction of the Codepoint Codec, whose implementation is
the C++ standard library's `codecvt_utf8`, outside this repository). -/
def utf8EncodeChar (c : Nat) : List Nat :=
  if c < 0x80 then [c]
  else if c < 0x800 then [0xC0 + c / 0x40, 0x80 + c % 0x40]
  else if c < 0x10000 then [0xE0 + c / 0x1000, 0x80 + c / 0x40 % 0x40, 0x80 + c % 0x40]
  else [0xF0 + c / 0x40000, 0x80 + c / 0x1000 % 0x40, 0x80 + c / 0x40 % 0x40, 0x80 + c % 0x40]

/-- The concatenated UTF-8 serialisation of a scalar sequence. -/
def utf8EncodeList : List Nat → List Nat
  | [] => []
  | c :: cs => utf8EncodeChar c ++ utf8EncodeList cs

/-- Modelled from the spec: `codepoints_to_utf8` (src lines 53-59).
Per the codec contract, encoding fails (an `EncodeError`) if any scalar
is out of range or a surrogate, and otherwise serialises to UTF-8. -/
def codepoints_to_utf8 (codepoints : List Nat) : Option (List Nat) :=
  if ∀ c ∈ codepoints, validScalar c then some (utf8EncodeList codepoints) else none

/-- The continuation of a two-byte UTF-8 sequence with lead byte `b`:
one continuation byte, an overlong check (the scalar must need two
bytes, so at least 0x80), and the rest of the input. -/
def decodeTail2 (b : Nat) : List Nat → Option (Nat × List Nat)
  | b1 :: bs1 =>
    if 0x80 ≤ b1 ∧ b1 < 0xC0 then
      let c := (b - 0xC0) * 0x40 + (b1 - 0x80)
      if 0x80 ≤ c then some (c, bs1) else none
    else none
  | [] => none

/-- The continuation of a three-byte UTF-8 sequence with lead byte `b`:
two continuation bytes, an overlong check and a surrogate check. -/
def decodeTail3 (b : Nat) : List Nat → Option (Nat × List Nat)
  | b1 :: b2 :: bs2 =>
    if (0x80 ≤ b1 ∧ b1 < 0xC0) ∧ (0x80 ≤ b2 ∧ b2 < 0xC0) then
      let c := (b - 0xE0) * 0x1000 + (b1 - 0x80) * 0x40 + (b2 - 0x80)
      if 0x800 ≤ c ∧ (c < 0xD800 ∨ 0xDFFF < c) then some (c, bs2) else none
    else none
  | _ => none

/-- The continuation of a four-byte UTF-8 sequence with lead byte `b`:
three continuation bytes, an overlong check and the Unicode range
bound. -/
def decodeTail4 (b : Nat) : List Nat → Option (Nat × List Nat)
  | b1 :: b2 :: b3 :: bs3 =>
    if (0x80 ≤ b1 ∧ b1 < 0xC0) ∧ (0x80 ≤ b2 ∧ b2 < 0xC0) ∧ (0x80 ≤ b3 ∧ b3 < 0xC0) then
      let c := (b - 0xF0) * 0x40000 + (b1 - 0x80) * 0x1000 + (b2 - 0x80) * 0x40 + (b3 - 0x80)
      if 0x10000 ≤ c ∧ c < 0x110000 then some (c, bs3) else none
    else none
  | _ => none

/-- Decode one UTF-8 character whose first byte is `b` and whose
remaining input is `bs`: classify the lead byte and hand over to the
matching continuation reader.  A lone continuation byte (0x80-0xBF) and
a byte above 0xF7 are malformed. -/
def decodeOne (b : Nat) (bs : List Nat) : Option (Nat × List Nat) :=
  if b < 0x80 then some (b, bs)
  else if b < 0xC0 then none
  else if b < 0xE0 then decodeTail2 b bs
  else if b < 0xF0 then decodeTail3 b bs
  else if b < 0xF8 then decodeTail4 b bs
  else none

/-- The decoding loop: read characters until the input is exhausted.
Each character consumes at least one byte, so the fuel only needs to be
as large as the byte count; `decodeLoop_fuel` below proves any
sufficient fuel gives the same answer. -/
def decodeLoop : Nat → List Nat → Option (List Nat)
  | _, [] => some []
  | 0, _ :: _ => none
  | fuel + 1, b :: bs =>
    match decodeOne b bs with
    | none => none
    | some (c, rest) => Option.map (fun t => c :: t) (decodeLoop fuel rest)

/-- Modelled from the spec: `utf8_to_codepoints` (src lines 45-51).
Per the codec contract, decoding interprets the bytes strictly as UTF-8
and fails (a `DecodeError`) on malformed continuation bytes, overlong
encodings, surrogates and out-of-range values. -/
def utf8_to_codepoints (s : List Nat) : Option (List Nat) :=
  decodeLoop s.length s

/-- The `std::getline` loop of `split` (src lines 110-121) with the
delimiter fixed to the only delimiter the program uses, a newline byte.
The accumulator is the token `std::getline` is currently extracting;
the final call that extracts no character fails, so an empty final
accumulator at the end of the bytes produces no token. -/
def splitAux : List Nat → List Nat → List (List Nat)
  | [], cur => if cur = [] then [] else [cur]
  | b :: bs, cur => if b = 0x0A then cur :: splitAux bs [] else splitAux bs (cur ++ [b])

/-- `split` (src lines 110-121) applied with delimiter '\n'. -/
def split (s : List Nat) : List (List Nat) := splitAux s []

/-- The inner loop of `get_grapheme_count` (src lines 131-135): starting
from `bytes = 1`, increment `bytes` while `((*it << bytes) & 0b11000000)
== 0b10000000`.  `*it` is the promoted byte value `b`; subtracting the
multiple of 2^(8+bytes) that signed promotion adds cannot change bits 6
and 7 of the shift, so the unsigned test below is the C++ test.  The
loop is fuelled; `bytesLoopF_stable` below proves 8 steps always finish
the loop, which is the loop's termination. -/
def bytesLoopF : Nat → Nat → Nat → Nat
  | 0, _, k => k
  | fuel + 1, b, k =>
    if ((b <<< k) &&& 0xC0) = 0x80 then bytesLoopF fuel b (k + 1) else k

/-- How far one iteration of `get_grapheme_count`'s outer loop advances
the iterator (src lines 129-137): 1 for a byte with the high bit clear,
otherwise the result of the inner `bytes` loop. -/
def graphemeBytes (b : Nat) : Nat :=
  if (b &&& 0x80) ≠ 0 then bytesLoopF 8 b 1 else 1

/-- The outer loop of `get_grapheme_count` (src lines 128-139), with the
iterator position `i` explicit.  The C++ loop runs while `it != s.end()`
and advances by `graphemeBytes`; the model also stops once `i` passes
`s.length` (where the C++ iterator has overrun the buffer and the
comparison `it != s.end()` can never again be reached; see
`grapheme_scan_end`).  The loop is fuelled; `graphemeLoopF_fuel` proves
`s.length + 1` steps always finish it.  Returns the count `n` and the
final iterator position. -/
def graphemeLoopF : Nat → List Nat → Nat → Nat → Nat × Nat
  | 0, _, i, n => (n, i)
  | fuel + 1, s, i, n =>
    if h : i < s.length then
      graphemeLoopF fuel s (i + graphemeBytes (s.get ⟨i, h⟩)) (n + 1)
    else (n, i)

/-- `get_grapheme_count` (src lines 123-142): the count of units the
byte walk sees. -/
def get_grapheme_count (s : List Nat) : Nat :=
  (graphemeLoopF (s.length + 1) s 0 0).1

/-- The final iterator position of `get_grapheme_count`'s walk.  For the
C++ code, a final position of `s.length` is the iterator landing exactly
on `s.end()`; a larger value is the iterator stepping past the end. -/
def grapheme_scan_end (s : List Nat) : Nat :=
  (graphemeLoopF (s.length + 1) s 0 0).2

/-- The global display-mode flag (src line 43). -/
def diff_only : Bool := true

/-- An exception thrown below `process_file`'s try block: a codec
failure from `std::wstring_convert` (decode of the message, or encode
of the converted scalars) or the internal-consistency
`std::runtime_error` of src line 162. -/
inductive CheckErr
  | decodeError
  | encodeError
  | sizeMismatch
deriving DecidableEq

/-- One printed two-column row (src lines 176-183): the original line,
then, when its unit count is below 80, padding spaces up to column 80,
then the separator bytes of `" | "`, then the converted line. -/
def renderRow (orig conv : List Nat) : List Nat :=
  orig ++
    (if get_grapheme_count orig < 80
      then List.replicate (80 - get_grapheme_count orig) 0x20 else []) ++
    (0x20 :: 0x7C :: 0x20 :: conv)

/-- The line comparison and reporting of `check_messages`
(src lines 158-187), the spec's `compare_and_report`, taking the
original message and its converted counterpart.  The result is the list
of printed rows (header line and stream effects omitted); the thrown
`std::runtime_error` of line 162 is `Except.error .sizeMismatch`. -/
def compare_and_report (message new_message : List Nat) :
    Except CheckErr (List (List Nat)) :=
  let message_lines := split message
  let new_message_lines := split new_message
  if message_lines.length ≠ new_message_lines.length then
    Except.error CheckErr.sizeMismatch
  else if message = new_message then Except.ok []
  else Except.ok ((message_lines.zip new_message_lines).filterMap
    (fun p => if diff_only = true ∧ p.1 = p.2 then none else some (renderRow p.1 p.2)))

/-- `check_messages` (src lines 144-187) on the raw message bytes the
external `get_metadata` call supplies: empty message is a no-op;
otherwise decode, remap every codepoint through the legacy table,
re-encode, and compare line by line. -/
def check_messages (message : List Nat) : Except CheckErr (List (List Nat)) :=
  if message = [] then Except.ok []
  else
    match utf8_to_codepoints message with
    | none => Except.error CheckErr.decodeError
    | some codepoints =>
      match codepoints_to_utf8 (codepoints.map cp437_to_unicode) with
      | none => Except.error CheckErr.encodeError
      | some new_message => compare_and_report message new_message

/-- A failure of the external module parser (libopenmpt), which is
outside this repository: `openmpt::module`'s constructor throwing on an
unrecognised or unreadable file. -/
inductive ParseErr
  | unparseable
deriving DecidableEq

/-- What one `process_file` call leaves behind: the `can't open` report
on the error stream (src line 197), or the rows written to stdout. -/
inductive FileReport
  | cantOpen
  | output (rows : List (List Nat))
deriving DecidableEq

/-- The `catch (const std::exception &e)` boundary of `process_file`
(src lines 193-198) applied to the outcome of its try block: every
exception value the body produces — parse errors and codec or
internal-consistency errors alike — becomes the `can't open` report,
and a normal outcome keeps its rows. -/
def catchBoundary (body : Except CheckErr (List (List Nat))) : FileReport :=
  match body with
  | Except.error _ => FileReport.cantOpen
  | Except.ok rows => FileReport.output rows

/-- `process_file` (src lines 189-199) on a file's parse outcome: a
parse failure is caught and reported; otherwise the extracted message is
checked, with any exception caught by the same handler. -/
def process_file (p : Except ParseErr (List Nat)) : FileReport :=
  match p with
  | Except.error _ => FileReport.cantOpen
  | Except.ok msg => catchBoundary (check_messages msg)

/-- `main` (src lines 201-208): process every file argument in order and
return exit status 0. -/
def run (files : List (Except ParseErr (List Nat))) : List FileReport × Nat :=
  (files.map process_file, 0)

/-- `main`'s loop expressed over the per-file try-block outcomes, one
per input file: each outcome passes through the catch boundary of
`process_file`, and the exit status is 0. -/
def runBodies (bodies : List (Except CheckErr (List (List Nat)))) :
    List FileReport × Nat :=
  (bodies.map catchBoundary, 0)


/-! ## Lemmas about the legacy charset table -/

theorem lookup_eq_none_of_keys_lt (l : List (Nat × Nat)) :
    ∀ c : Nat, (∀ p ∈ l, p.1 < 0x100) → 0x100 ≤ c → l.lookup c = none := by
  induction l with
  | nil => intro c _ _; rfl
  | cons p t ih =>
    intro c hk hc
    have h1 : p.1 < 0x100 := hk p (List.mem_cons_self p t)
    have hne : (c == p.1) = false := by
      simp only [beq_eq_false_iff_ne, ne_eq]
      omega
    simpa [List.lookup, hne] using ih c (fun q hq => hk q (List.mem_cons_of_mem p hq)) hc

theorem cp437_table_keys_lt : ∀ p ∈ cp437_table, p.1 < 0x100 := by decide

theorem cp437_id_of_ge (c : Nat) (hc : 0x100 ≤ c) : cp437_to_unicode c = c := by
  unfold cp437_to_unicode
  rw [lookup_eq_none_of_keys_lt cp437_table c cp437_table_keys_lt hc]

theorem cp437_eq_newline_iff (c : Nat) : cp437_to_unicode c = 0x0A ↔ c = 0x0A := by
  by_cases h : c < 0x100
  · have key : ∀ b < 0x100, (cp437_to_unicode b = 0x0A ↔ b = 0x0A) := by decide
    exact key c h
  · rw [cp437_id_of_ge c (by omega)]

theorem cp437_preserves_validScalar (c : Nat) (h : validScalar c) :
    validScalar (cp437_to_unicode c) := by
  by_cases hlt : c < 0x100
  · have key : ∀ b < 0x100, validScalar (cp437_to_unicode b) := by decide
    exact key c hlt
  · rw [cp437_id_of_ge c (by omega)]; exact h

/-! ## The codec round trip -/

theorem decodeOne_encodeChar (c : Nat) (rest : List Nat) (h : validScalar c) :
    ∃ b tail, utf8EncodeChar c = b :: tail ∧ decodeOne b (tail ++ rest) = some (c, rest) := by
  obtain ⟨hlt, hsur⟩ := h
  by_cases h1 : c < 0x80
  · refine ⟨c, [], by rw [utf8EncodeChar, if_pos h1], ?_⟩
    rw [List.nil_append]
    unfold decodeOne
    rw [if_pos h1]
  · by_cases h2 : c < 0x800
    · refine ⟨0xC0 + c / 0x40, [0x80 + c % 0x40],
        by rw [utf8EncodeChar, if_neg h1, if_pos h2], ?_⟩
      rw [List.cons_append, List.nil_append]
      unfold decodeOne
      rw [if_neg (by omega), if_neg (by omega), if_pos (by omega)]
      simp only [decodeTail2]
      rw [if_pos (show 0x80 ≤ 0x80 + c % 0x40 ∧ 0x80 + c % 0x40 < 0xC0 by omega)]
      have e5 : (0xC0 + c / 0x40 - 0xC0) * 0x40 + (0x80 + c % 0x40 - 0x80) = c := by omega
      rw [e5, if_pos (by omega)]
    · by_cases h3 : c < 0x10000
      · refine ⟨0xE0 + c / 0x1000, [0x80 + c / 0x40 % 0x40, 0x80 + c % 0x40],
          by rw [utf8EncodeChar, if_neg h1, if_neg h2, if_pos h3], ?_⟩
        rw [List.cons_append, List.cons_append, List.nil_append]
        unfold decodeOne
        rw [if_neg (by omega), if_neg (by omega), if_neg (by omega), if_pos (by omega)]
        simp only [decodeTail3]
        rw [if_pos (show (0x80 ≤ 0x80 + c / 0x40 % 0x40 ∧ 0x80 + c / 0x40 % 0x40 < 0xC0) ∧
          (0x80 ≤ 0x80 + c % 0x40 ∧ 0x80 + c % 0x40 < 0xC0) by omega)]
        have e5 : (0xE0 + c / 0x1000 - 0xE0) * 0x1000 +
            (0x80 + c / 0x40 % 0x40 - 0x80) * 0x40 + (0x80 + c % 0x40 - 0x80) = c := by
          omega
        rw [e5, if_pos (show 0x800 ≤ c ∧ (c < 0xD800 ∨ 0xDFFF < c) from ⟨by omega, hsur⟩)]
      · refine ⟨0xF0 + c / 0x40000,
          [0x80 + c / 0x1000 % 0x40, 0x80 + c / 0x40 % 0x40, 0x80 + c % 0x40],
          by rw [utf8EncodeChar, if_neg h1, if_neg h2, if_neg h3], ?_⟩
        rw [List.cons_append, List.cons_append, List.cons_append, List.nil_append]
        unfold decodeOne
        rw [if_neg (by omega), if_neg (by omega), if_neg (by omega), if_neg (by omega),
          if_pos (by omega)]
        simp only [decodeTail4]
        rw [if_pos (show (0x80 ≤ 0x80 + c / 0x1000 % 0x40 ∧ 0x80 + c / 0x1000 % 0x40 < 0xC0) ∧
          (0x80 ≤ 0x80 + c / 0x40 % 0x40 ∧ 0x80 + c / 0x40 % 0x40 < 0xC0) ∧
          (0x80 ≤ 0x80 + c % 0x40 ∧ 0x80 + c % 0x40 < 0xC0) by omega)]
        have e5 : (0xF0 + c / 0x40000 - 0xF0) * 0x40000 +
            (0x80 + c / 0x1000 % 0x40 - 0x80) * 0x1000 +
            (0x80 + c / 0x40 % 0x40 - 0x80) * 0x40 + (0x80 + c % 0x40 - 0x80) = c := by
          omega
        rw [e5, if_pos (show 0x10000 ≤ c ∧ c < 0x110000 by omega)]

theorem decode_encodeList_fuel (s : List Nat) (h : ∀ c ∈ s, validScalar c) :
    ∀ f, (utf8EncodeList s).length ≤ f → decodeLoop f (utf8EncodeList s) = some s := by
  induction s with
  | nil =>
    intro f _
    rcases f with _ | f <;> rfl
  | cons c cs ih =>
    intro f hf
    obtain ⟨b, tail, hbc, hdec⟩ :=
      decodeOne_encodeChar c (utf8EncodeList cs) (h c (List.mem_cons_self c cs))
    rw [utf8EncodeList, hbc, List.cons_append] at hf ⊢
    rcases f with _ | f
    · simp only [List.length_cons] at hf
      omega
    · simp only [decodeLoop]
      rw [hdec]
      simp only
      rw [ih (fun x hx => h x (List.mem_cons_of_mem c hx)) f
        (by simp only [List.length_cons, List.length_append] at hf; omega)]
      rfl

theorem decodeOne_sound (b c : Nat) (bs rest : List Nat)
    (h : decodeOne b bs = some (c, rest)) :
    validScalar c ∧ utf8EncodeChar c ++ rest = b :: bs := by
  unfold decodeOne at h
  by_cases h1 : b < 0x80
  · rw [if_pos h1] at h
    simp only [Option.some.injEq, Prod.mk.injEq] at h
    obtain ⟨rfl, rfl⟩ := h
    exact ⟨⟨by omega, by omega⟩, by rw [utf8EncodeChar, if_pos h1]; rfl⟩
  · by_cases h2 : b < 0xC0
    · rw [if_neg h1, if_pos h2] at h
      exact absurd h (by simp)
    · by_cases h3 : b < 0xE0
      · rw [if_neg h1, if_neg h2, if_pos h3] at h
        cases bs with
        | nil => exact absurd h (by simp [decodeTail2])
        | cons b1 bs1 =>
          simp only [decodeTail2] at h
          by_cases h4 : 0x80 ≤ b1 ∧ b1 < 0xC0
          · rw [if_pos h4] at h
            by_cases h5 : 0x80 ≤ (b - 0xC0) * 0x40 + (b1 - 0x80)
            · rw [if_pos h5] at h
              simp only [Option.some.injEq, Prod.mk.injEq] at h
              obtain ⟨rfl, rfl⟩ := h
              refine ⟨⟨by omega, by omega⟩, ?_⟩
              rw [utf8EncodeChar, if_neg (by omega), if_pos (by omega)]
              simp only [List.cons_append, List.nil_append, List.cons.injEq]
              exact ⟨by omega, by omega, trivial⟩
            · rw [if_neg h5] at h
              exact absurd h (by simp)
          · rw [if_neg h4] at h
            exact absurd h (by simp)
      · by_cases h6 : b < 0xF0
        · rw [if_neg h1, if_neg h2, if_neg h3, if_pos h6] at h
          cases bs with
          | nil => exact absurd h (by simp [decodeTail3])
          | cons b1 bs1 =>
          cases bs1 with
          | nil => exact absurd h (by simp [decodeTail3])
          | cons b2 bs2 =>
            simp only [decodeTail3] at h
            by_cases h4 : (0x80 ≤ b1 ∧ b1 < 0xC0) ∧ (0x80 ≤ b2 ∧ b2 < 0xC0)
            · rw [if_pos h4] at h
              by_cases h5 : 0x800 ≤ (b - 0xE0) * 0x1000 + (b1 - 0x80) * 0x40 + (b2 - 0x80) ∧
                  ((b - 0xE0) * 0x1000 + (b1 - 0x80) * 0x40 + (b2 - 0x80) < 0xD800 ∨
                    0xDFFF < (b - 0xE0) * 0x1000 + (b1 - 0x80) * 0x40 + (b2 - 0x80))
              · rw [if_pos h5] at h
                simp only [Option.some.injEq, Prod.mk.injEq] at h
                obtain ⟨rfl, rfl⟩ := h
                obtain ⟨⟨h41, h42⟩, h43, h44⟩ := h4
                refine ⟨⟨by omega, h5.2⟩, ?_⟩
                rw [utf8EncodeChar, if_neg (by omega), if_neg (by omega), if_pos (by omega)]
                simp only [List.cons_append, List.nil_append, List.cons.injEq]
                exact ⟨by omega, by omega, by omega, trivial⟩
              · rw [if_neg h5] at h
                exact absurd h (by simp)
            · rw [if_neg h4] at h
              exact absurd h (by simp)
        · by_cases h7 : b < 0xF8
          · rw [if_neg h1, if_neg h2, if_neg h3, if_neg h6, if_pos h7] at h
            cases bs with
            | nil => exact absurd h (by simp [decodeTail4])
            | cons b1 bs1 =>
            cases bs1 with
            | nil => exact absurd h (by simp [decodeTail4])
            | cons b2 bs2 =>
            cases bs2 with
            | nil => exact absurd h (by simp [decodeTail4])
            | cons b3 bs3 =>
              simp only [decodeTail4] at h
              by_cases h4 : (0x80 ≤ b1 ∧ b1 < 0xC0) ∧ (0x80 ≤ b2 ∧ b2 < 0xC0) ∧
                  (0x80 ≤ b3 ∧ b3 < 0xC0)
              · rw [if_pos h4] at h
                by_cases h5 : 0x10000 ≤ (b - 0xF0) * 0x40000 + (b1 - 0x80) * 0x1000 +
                    (b2 - 0x80) * 0x40 + (b3 - 0x80) ∧
                    (b - 0xF0) * 0x40000 + (b1 - 0x80) * 0x1000 +
                      (b2 - 0x80) * 0x40 + (b3 - 0x80) < 0x110000
                · rw [if_pos h5] at h
                  simp only [Option.some.injEq, Prod.mk.injEq] at h
                  obtain ⟨rfl, rfl⟩ := h
                  obtain ⟨⟨h41, h42⟩, ⟨h43, h44⟩, h45, h46⟩ := h4
                  refine ⟨⟨h5.2, by omega⟩, ?_⟩
                  rw [utf8EncodeChar, if_neg (by omega), if_neg (by omega), if_neg (by omega)]
                  simp only [List.cons_append, List.nil_append, List.cons.injEq]
                  exact ⟨by omega, by omega, by omega, by omega, trivial⟩
                · rw [if_neg h5] at h
                  exact absurd h (by simp)
              · rw [if_neg h4] at h
                exact absurd h (by simp)
          · rw [if_neg h1, if_neg h2, if_neg h3, if_neg h6, if_neg h7] at h
            exact absurd h (by simp)

theorem decodeLoop_sound : ∀ (f : Nat) (l s : List Nat), decodeLoop f l = some s →
    (∀ c ∈ s, validScalar c) ∧ utf8EncodeList s = l := by
  intro f
  induction f with
  | zero =>
    intro l s h
    cases l with
    | nil =>
      simp only [decodeLoop, Option.some.injEq] at h
      subst h
      exact ⟨fun c hc => absurd hc (List.not_mem_nil c), rfl⟩
    | cons b bs =>
      simp only [decodeLoop] at h
      exact absurd h (by simp)
  | succ f ih =>
    intro l s h
    cases l with
    | nil =>
      simp only [decodeLoop, Option.some.injEq] at h
      subst h
      exact ⟨fun c hc => absurd hc (List.not_mem_nil c), rfl⟩
    | cons b bs =>
      simp only [decodeLoop] at h
      cases hd : decodeOne b bs with
      | none =>
        rw [hd] at h
        exact absurd h (by simp)
      | some cr =>
        obtain ⟨c, rest⟩ := cr
        rw [hd] at h
        simp only at h
        obtain ⟨t, ht, rfl⟩ := Option.map_eq_some'.mp h
        obtain ⟨hv, henc⟩ := ih rest t ht
        obtain ⟨hvc, hcat⟩ := decodeOne_sound b c bs rest hd
        refine ⟨?_, ?_⟩
        · intro x hx
          rcases List.mem_cons.mp hx with rfl | hx
          · exact hvc
          · exact hv x hx
        · rw [utf8EncodeList, henc, hcat]

theorem decodeLoop_fuel : ∀ (f g : Nat) (l : List Nat), l.length ≤ f → l.length ≤ g →
    decodeLoop f l = decodeLoop g l := by
  intro f
  induction f with
  | zero =>
    intro g l hf _
    have : l = [] := List.length_eq_zero.mp (by omega)
    subst this
    rcases g with _ | g <;> rfl
  | succ f ih =>
    intro g l hf hg
    cases l with
    | nil => rcases g with _ | g <;> rfl
    | cons b bs =>
      rcases g with _ | g
      · simp only [List.length_cons] at hg
        omega
      · simp only [decodeLoop]
        cases hd : decodeOne b bs with
        | none => rfl
        | some cr =>
          obtain ⟨c, rest⟩ := cr
          simp only
          have hrest : rest.length ≤ bs.length := by
            obtain ⟨_, hcat⟩ := decodeOne_sound b c bs rest hd
            have hne : utf8EncodeChar c ≠ [] := by
              rw [utf8EncodeChar]
              split
              · exact List.cons_ne_nil _ _
              · split
                · exact List.cons_ne_nil _ _
                · split
                  · exact List.cons_ne_nil _ _
                  · exact List.cons_ne_nil _ _
            have := congrArg List.length hcat
            simp only [List.length_append, List.length_cons] at this
            rcases List.exists_cons_of_ne_nil hne with ⟨y, ys, hys⟩
            rw [hys] at this
            simp only [List.length_cons] at this
            omega
          rw [ih g rest (by simp only [List.length_cons] at hf; omega)
            (by simp only [List.length_cons] at hg; omega)]

theorem decode_encodeList (s : List Nat) (h : ∀ c ∈ s, validScalar c) :
    utf8_to_codepoints (utf8EncodeList s) = some s :=
  decode_encodeList_fuel s h (utf8EncodeList s).length le_rfl

theorem decode_sound (l s : List Nat) (h : utf8_to_codepoints l = some s) :
    (∀ c ∈ s, validScalar c) ∧ utf8EncodeList s = l :=
  decodeLoop_sound l.length l s h

/-- C5: the codec round-trips.  Encoding any sequence of scalar values
in the valid Unicode range (surrogates excluded) succeeds and decodes
back to the same sequence; and any byte sequence that decodes as valid
UTF-8 is re-encoded to exactly the original bytes. -/
theorem codec_round_trip :
    (∀ s : List Nat, (∀ c ∈ s, validScalar c) →
        ∃ b, codepoints_to_utf8 s = some b ∧ utf8_to_codepoints b = some s) ∧
      (∀ b s : List Nat, utf8_to_codepoints b = some s → codepoints_to_utf8 s = some b) := by
  constructor
  · intro s hs
    refine ⟨utf8EncodeList s, ?_, decode_encodeList s hs⟩
    rw [codepoints_to_utf8, if_pos hs]
  · intro b s h
    obtain ⟨hv, he⟩ := decode_sound b s h
    rw [codepoints_to_utf8, if_pos hv, he]

theorem codec_round_trip_witness :
    utf8_to_codepoints [0xE2, 0x99, 0xA5] = some [0x2665] ∧
      codepoints_to_utf8 [0x2665] = some [0xE2, 0x99, 0xA5] :=
  ⟨by decide, codec_round_trip.2 [0xE2, 0x99, 0xA5] [0x2665] (by decide)⟩

/-! ## Line splitting and newline preservation -/

/-- The number of newline bytes of a byte string. -/
def countNL : List Nat → Nat
  | [] => 0
  | b :: bs => (if b = 0x0A then 1 else 0) + countNL bs

theorem splitAux_length (s : List Nat) : ∀ cur : List Nat,
    (splitAux s cur).length = countNL s +
      (if s.getLast? = some 0x0A then 0 else if cur ++ s = [] then 0 else 1) := by
  induction s with
  | nil =>
    intro cur
    by_cases h : cur = [] <;> simp [splitAux, countNL, h]
  | cons b bs ih =>
    intro cur
    rw [splitAux]
    by_cases hb : b = 0x0A
    · rw [if_pos hb]
      simp only [List.length_cons]
      rw [ih [], countNL, if_pos hb]
      subst hb
      cases bs with
      | nil => simp [countNL]
      | cons b2 bs2 =>
        rw [List.getLast?_cons_cons]
        by_cases hl : (b2 :: bs2).getLast? = some 0x0A
        · simp [hl]
          omega
        · simp [hl]
          omega
    · rw [if_neg hb]
      rw [ih (cur ++ [b]), countNL, if_neg hb]
      cases bs with
      | nil => simp [hb, countNL]
      | cons b2 bs2 =>
        rw [List.getLast?_cons_cons]
        by_cases hl : (b2 :: bs2).getLast? = some 0x0A
        · simp [hl]
        · simp [hl]

theorem split_length (s : List Nat) :
    (split s).length = countNL s +
      (if s.getLast? = some 0x0A then 0 else if s = [] then 0 else 1) := by
  rw [split, splitAux_length]
  simp only [List.nil_append]

theorem encodeChar_ne_nil (c : Nat) : utf8EncodeChar c ≠ [] := by
  rw [utf8EncodeChar]
  split
  · exact List.cons_ne_nil _ _
  · split
    · exact List.cons_ne_nil _ _
    · split
      · exact List.cons_ne_nil _ _
      · exact List.cons_ne_nil _ _

theorem encodeList_eq_nil_iff (s : List Nat) : utf8EncodeList s = [] ↔ s = [] := by
  cases s with
  | nil => simp [utf8EncodeList]
  | cons c cs =>
    rw [utf8EncodeList]
    simp only [List.append_eq_nil]
    constructor
    · rintro ⟨h, _⟩
      exact absurd h (encodeChar_ne_nil c)
    · intro h
      exact absurd h (List.cons_ne_nil c cs)

theorem countNL_append (l1 l2 : List Nat) :
    countNL (l1 ++ l2) = countNL l1 + countNL l2 := by
  induction l1 with
  | nil => simp [countNL]
  | cons b bs ih =>
    rw [List.cons_append, countNL, countNL, ih]
    omega

theorem countNL_encodeChar (c : Nat) :
    countNL (utf8EncodeChar c) = if c = 0x0A then 1 else 0 := by
  rw [utf8EncodeChar]
  by_cases h1 : c < 0x80
  · rw [if_pos h1]
    simp only [countNL]
    omega
  · rw [if_neg h1, if_neg (show ¬c = 0x0A by omega)]
    by_cases h2 : c < 0x800
    · rw [if_pos h2]
      simp only [countNL]
      rw [if_neg (by omega), if_neg (by omega)]
    · by_cases h3 : c < 0x10000
      · rw [if_neg h2, if_pos h3]
        simp only [countNL]
        rw [if_neg (by omega), if_neg (by omega), if_neg (by omega)]
      · rw [if_neg h2, if_neg h3]
        simp only [countNL]
        rw [if_neg (by omega), if_neg (by omega), if_neg (by omega), if_neg (by omega)]

theorem countNL_encodeList (s : List Nat) :
    countNL (utf8EncodeList s) = countNL s := by
  induction s with
  | nil => rfl
  | cons c cs ih =>
    rw [utf8EncodeList, countNL_append, countNL_encodeChar, ih, countNL]

theorem countNL_map_cp437 (s : List Nat) :
    countNL (s.map cp437_to_unicode) = countNL s := by
  induction s with
  | nil => rfl
  | cons c cs ih =>
    rw [List.map_cons, countNL, countNL, ih]
    by_cases hc : c = 0x0A
    · subst hc
      rw [if_pos (by decide : cp437_to_unicode 0x0A = 0x0A), if_pos rfl]
    · rw [if_neg (fun hcon => hc ((cp437_eq_newline_iff c).mp hcon)), if_neg hc]

theorem getLast?_encodeChar (c : Nat) :
    (utf8EncodeChar c).getLast? = some 0x0A ↔ c = 0x0A := by
  rw [utf8EncodeChar]
  by_cases h1 : c < 0x80
  · rw [if_pos h1]
    simp
  · rw [if_neg h1]
    by_cases h2 : c < 0x800
    · rw [if_pos h2]
      simp only [List.getLast?_cons_cons, List.getLast?_singleton, Option.some.injEq]
      constructor <;> (intro h; omega)
    · by_cases h3 : c < 0x10000
      · rw [if_neg h2, if_pos h3]
        simp only [List.getLast?_cons_cons, List.getLast?_singleton, Option.some.injEq]
        constructor <;> (intro h; omega)
      · rw [if_neg h2, if_neg h3]
        simp only [List.getLast?_cons_cons, List.getLast?_singleton, Option.some.injEq]
        constructor <;> (intro h; omega)

theorem getLast?_encodeList (s : List Nat) :
    (utf8EncodeList s).getLast? = some 0x0A ↔ s.getLast? = some 0x0A := by
  induction s with
  | nil => simp [utf8EncodeList]
  | cons c cs ih =>
    rw [utf8EncodeList]
    cases cs with
    | nil =>
      rw [utf8EncodeList, List.append_nil, getLast?_encodeChar]
      simp
    | cons c2 cs2 =>
      have hne : utf8EncodeList (c2 :: cs2) ≠ [] := by
        rw [ne_eq, encodeList_eq_nil_iff]
        exact List.cons_ne_nil c2 cs2
      rw [List.getLast?_append_of_ne_nil _ hne, ih, List.getLast?_cons_cons]

theorem getLast?_map_cp437 (s : List Nat) :
    (s.map cp437_to_unicode).getLast? = some 0x0A ↔ s.getLast? = some 0x0A := by
  induction s with
  | nil => simp
  | cons c cs ih =>
    cases cs with
    | nil =>
      simp only [List.map_cons, List.map_nil, List.getLast?_singleton, Option.some.injEq]
      exact cp437_eq_newline_iff c
    | cons c2 cs2 =>
      rw [List.map_cons, List.map_cons, List.getLast?_cons_cons, ← List.map_cons, ih,
        List.getLast?_cons_cons]

theorem split_length_preserved (msg cps : List Nat)
    (h : utf8_to_codepoints msg = some cps) :
    (split msg).length = (split (utf8EncodeList (cps.map cp437_to_unicode))).length := by
  obtain ⟨hv, henc⟩ := decode_sound msg cps h
  rw [← henc, split_length, split_length, countNL_encodeList, countNL_encodeList,
    countNL_map_cp437]
  congr 1
  by_cases h10 : cps.getLast? = some 0x0A
  · rw [if_pos ((getLast?_encodeList cps).mpr h10),
      if_pos ((getLast?_encodeList _).mpr ((getLast?_map_cp437 cps).mpr h10))]
  · rw [if_neg (fun hcon => h10 ((getLast?_encodeList cps).mp hcon)),
      if_neg (fun hcon => h10 ((getLast?_map_cp437 cps).mp
        ((getLast?_encodeList _).mp hcon)))]
    by_cases hnil : cps = []
    · subst hnil
      rfl
    · rw [if_neg (fun hcon => hnil ((encodeList_eq_nil_iff cps).mp hcon)),
        if_neg (fun hcon => hnil (List.map_eq_nil_iff.mp ((encodeList_eq_nil_iff _).mp hcon)))]

theorem check_messages_no_sizeMismatch (msg : List Nat) :
    check_messages msg ≠ Except.error CheckErr.sizeMismatch := by
  unfold check_messages
  by_cases hm : msg = []
  · rw [if_pos hm]
    simp
  · rw [if_neg hm]
    cases hd : utf8_to_codepoints msg with
    | none => simp
    | some cps =>
      simp only
      have hv : ∀ c ∈ cps.map cp437_to_unicode, validScalar c := by
        intro x hx
        obtain ⟨c, hc, rfl⟩ := List.mem_map.mp hx
        exact cp437_preserves_validScalar c ((decode_sound msg cps hd).1 c hc)
      rw [codepoints_to_utf8, if_pos hv]
      simp only [compare_and_report]
      rw [if_neg (fun hne => hne (split_length_preserved msg cps hd))]
      by_cases heq : msg = utf8EncodeList (cps.map cp437_to_unicode)
      · rw [if_pos heq]
        simp
      · rw [if_neg heq]
        simp

/-- C4: for every message that decodes as UTF-8, the per-codepoint CP437
remap never changes the number of newline-delimited lines produced by
splitting on a newline, and the internal-consistency error branch of
`check_messages` is unreachable (0x0A maps to itself and no other
codepoint maps to 0x0A). -/
theorem remap_preserves_line_count :
    (∀ msg cps : List Nat, utf8_to_codepoints msg = some cps →
        (split msg).length =
          (split (utf8EncodeList (cps.map cp437_to_unicode))).length) ∧
      ∀ msg : List Nat, check_messages msg ≠ Except.error CheckErr.sizeMismatch :=
  ⟨split_length_preserved, check_messages_no_sizeMismatch⟩

theorem remap_preserves_line_count_witness :
    utf8_to_codepoints [0x61, 0x0A, 0xC2, 0x81] = some [0x61, 0x0A, 0x81] ∧
      (split [0x61, 0x0A, 0xC2, 0x81]).length =
        (split (utf8EncodeList ([0x61, 0x0A, 0x81].map cp437_to_unicode))).length :=
  ⟨by decide,
    remap_preserves_line_count.1 [0x61, 0x0A, 0xC2, 0x81] [0x61, 0x0A, 0x81] (by decide)⟩

/-- C8 counterexample: the message consisting of an ASCII byte followed
by a final newline contains exactly one newline, yet `split` yields one
line, not two: `std::getline` consumes the final delimiter and then
fails without producing the empty trailing token. -/
theorem split_one_newline_counterexample :
    countNL [0x61, 0x0A] = 1 ∧ (split [0x61, 0x0A]).length = 1 := by
  constructor
  · decide
  · decide

/-- C8 (amended): for every message that decodes as UTF-8 and contains
exactly one newline byte that is not its final byte, splitting the
message on newlines yields exactly two lines, and so does splitting its
converted counterpart.  (When the single newline is the final byte,
both sides split into one line instead, the trailing empty segment
being dropped.) -/
theorem split_one_newline_two_lines (msg cps : List Nat)
    (h : utf8_to_codepoints msg = some cps)
    (h1 : countNL msg = 1) (h2 : msg.getLast? ≠ some 0x0A) :
    (split msg).length = 2 ∧
      (split (utf8EncodeList (cps.map cp437_to_unicode))).length = 2 := by
  have hpres := split_length_preserved msg cps h
  have hne : msg ≠ [] := by
    intro hmm
    subst hmm
    simp [countNL] at h1
  constructor
  · rw [split_length, if_neg h2, if_neg hne, h1]
  · rw [← hpres, split_length, if_neg h2, if_neg hne, h1]

/-! ## The grapheme walk: termination and the missing clamp -/

theorem bytesLoopF_ge : ∀ (fuel b k : Nat), k ≤ bytesLoopF fuel b k := by
  intro fuel
  induction fuel with
  | zero => intro b k; exact le_rfl
  | succ fuel ih =>
    intro b k
    rw [bytesLoopF]
    by_cases h : ((b <<< k) &&& 0xC0) = 0x80
    · rw [if_pos h]
      exact le_trans (Nat.le_succ k) (ih b (k + 1))
    · rw [if_neg h]

theorem graphemeBytes_pos (b : Nat) : 1 ≤ graphemeBytes b := by
  rw [graphemeBytes]
  by_cases h : (b &&& 0x80) ≠ 0
  · rw [if_pos h]
    exact bytesLoopF_ge 8 b 1
  · rw [if_neg h]

theorem shift_and_ne_of_ge (b k : Nat) (h : 8 ≤ k) : ((b <<< k) &&& 0xC0) ≠ 0x80 := by
  intro hcon
  have h7 := congrArg (fun x => Nat.testBit x 7) hcon
  simp only [Nat.testBit_and, Nat.testBit_shiftLeft] at h7
  rw [decide_eq_false (by omega : ¬7 ≥ k)] at h7
  simp at h7
  exact absurd h7 (by decide)

theorem bytesLoopF_stable : ∀ (f g k b : Nat), 8 - k ≤ f → 8 - k ≤ g →
    bytesLoopF f b k = bytesLoopF g b k := by
  intro f
  induction f with
  | zero =>
    intro g k b hf _
    rcases g with _ | g
    · rfl
    · rw [bytesLoopF, bytesLoopF, if_neg (shift_and_ne_of_ge b k (by omega))]
  | succ f ih =>
    intro g k b hf hg
    rcases g with _ | g
    · rw [bytesLoopF, bytesLoopF, if_neg (shift_and_ne_of_ge b k (by omega))]
    · rw [bytesLoopF, bytesLoopF]
      by_cases hc : ((b <<< k) &&& 0xC0) = 0x80
      · have hk : k < 8 := by
          by_contra hk8
          exact shift_and_ne_of_ge b k (by omega) hc
        rw [if_pos hc, if_pos hc]
        exact ih g (k + 1) b (by omega) (by omega)
      · rw [if_neg hc, if_neg hc]

theorem graphemeBytes_one_or_two (b : Nat) (h : b < 0x100) :
    graphemeBytes b = 1 ∨ graphemeBytes b = 2 := by
  have key : ∀ b' < 0x100, graphemeBytes b' = 1 ∨ graphemeBytes b' = 2 := by decide
  exact key b h

theorem graphemeLoopF_exit (f : Nat) (s : List Nat) (i n : Nat) (h : s.length ≤ i) :
    graphemeLoopF f s i n = (n, i) := by
  rcases f with _ | f
  · rfl
  · rw [graphemeLoopF, dif_neg (by omega)]

theorem graphemeLoopF_walk : ∀ (f : Nat) (s : List Nat) (i n : Nat),
    (∀ b ∈ s, b < 0x100) → s.length - i < f → i ≤ s.length →
    (graphemeLoopF f s i n).2 = s.length ∨
      ((graphemeLoopF f s i n).2 = s.length + 1 ∧
        ∃ b, s.getLast? = some b ∧ graphemeBytes b = 2) := by
  intro f
  induction f with
  | zero =>
    intro s i n _ hf _
    omega
  | succ f ih =>
    intro s i n hb hf hi
    by_cases hlt : i < s.length
    · rw [graphemeLoopF, dif_pos hlt]
      have hbmem : s.get ⟨i, hlt⟩ ∈ s := List.get_mem s i hlt
      rcases graphemeBytes_one_or_two (s.get ⟨i, hlt⟩) (hb _ hbmem) with h1 | h2
      · rw [h1]
        exact ih s (i + 1) (n + 1) hb (by omega) (by omega)
      · rw [h2]
        by_cases hend : i + 2 ≤ s.length
        · exact ih s (i + 2) (n + 1) hb (by omega) hend
        · rw [graphemeLoopF_exit f s (i + 2) (n + 1) (by omega)]
          right
          refine ⟨by simp; omega, s.get ⟨i, hlt⟩, ?_, h2⟩
          rw [List.getLast?_eq_getElem?,
            List.getElem?_eq_getElem (by omega : s.length - 1 < s.length)]
          have hieq : i = s.length - 1 := by omega
          subst hieq
          rw [List.get_eq_getElem]
    · rw [graphemeLoopF_exit (f + 1) s i n (by omega)]
      left
      simp
      omega

theorem graphemeLoopF_fuel : ∀ (f g : Nat) (s : List Nat) (i n : Nat),
    s.length - i < f → s.length - i < g →
    graphemeLoopF f s i n = graphemeLoopF g s i n := by
  intro f
  induction f with
  | zero =>
    intro g s i n hf _
    omega
  | succ f ih =>
    intro g s i n hf hg
    by_cases hlt : i < s.length
    · rcases g with _ | g
      · omega
      · rw [graphemeLoopF, graphemeLoopF, dif_pos hlt, dif_pos hlt]
        have hpos := graphemeBytes_pos (s.get ⟨i, hlt⟩)
        exact ih g s (i + graphemeBytes (s.get ⟨i, hlt⟩)) (n + 1) (by omega) (by omega)
    · rw [graphemeLoopF_exit (f + 1) s i n (by omega),
        graphemeLoopF_exit g s i n (by omega)]

/-- C9 counterexample: on a truncated trailing two-byte lead (a single
byte 0xC3), the walk of `get_grapheme_count` advances the iterator to
position 2, one past the end of the one-byte buffer: iteration is not
clamped to the buffer length, and in the C++ code the loop condition
`it != s.end()` is stepped over. -/
theorem grapheme_scan_counterexample :
    grapheme_scan_end [0xC3] = 2 ∧ [0xC3].length + 1 = 2 := by
  constructor
  · decide
  · decide

/-- C9 (amended): for every byte sequence, including malformed UTF-8,
the walk of `get_grapheme_count` terminates: each step advances by 1 or
2 positions, the inner bit loop is insensitive to extra fuel, and so is
the outer loop.  But iteration is not clamped to the buffer length: the
final iterator position is either exactly the buffer length, or one
past it — the latter exactly when the walk reaches the final byte and
that byte asks for a two-byte step (a 0b110xxxxx lead), in which case
the C++ iterator overruns the buffer end. -/
theorem grapheme_walk_no_clamp (s : List Nat) (hb : ∀ b ∈ s, b < 0x100) :
    (grapheme_scan_end s = s.length ∨
      (grapheme_scan_end s = s.length + 1 ∧
        ∃ b, s.getLast? = some b ∧ graphemeBytes b = 2)) ∧
      (∀ b' ∈ s, graphemeBytes b' = 1 ∨ graphemeBytes b' = 2) ∧
      (∀ f, s.length < f → graphemeLoopF f s 0 0 = graphemeLoopF (s.length + 1) s 0 0) ∧
      ∀ b' k f g : Nat, 8 - k ≤ f → 8 - k ≤ g → bytesLoopF f b' k = bytesLoopF g b' k := by
  refine ⟨?_, ?_, ?_, ?_⟩
  · exact graphemeLoopF_walk (s.length + 1) s 0 0 hb (by omega) (by omega)
  · intro b' hbm
    exact graphemeBytes_one_or_two b' (hb b' hbm)
  · intro f hf
    exact graphemeLoopF_fuel f (s.length + 1) s 0 0 (by omega) (by omega)
  · intro b' k f g hf hg
    exact bytesLoopF_stable f g k b' hf hg

theorem grapheme_walk_no_clamp_witness :
    (∀ b ∈ [0x61, 0xC3], b < 0x100) ∧
      (grapheme_scan_end [0x61, 0xC3] = [0x61, 0xC3].length ∨
        (grapheme_scan_end [0x61, 0xC3] = [0x61, 0xC3].length + 1 ∧
          ∃ b, [0x61, 0xC3].getLast? = some b ∧ graphemeBytes b = 2)) :=
  ⟨by decide, (grapheme_walk_no_clamp [0x61, 0xC3] (by decide)).1⟩

theorem split_one_newline_two_lines_witness :
    utf8_to_codepoints [0x61, 0x0A, 0x62] = some [0x61, 0x0A, 0x62] ∧
      countNL [0x61, 0x0A, 0x62] = 1 ∧
      [0x61, 0x0A, 0x62].getLast? ≠ some 0x0A ∧
      (split [0x61, 0x0A, 0x62]).length = 2 ∧
      (split (utf8EncodeList ([0x61, 0x0A, 0x62].map cp437_to_unicode))).length = 2 := by
  have h := split_one_newline_two_lines [0x61, 0x0A, 0x62] [0x61, 0x0A, 0x62]
    (by decide) (by decide) (by decide)
  exact ⟨by decide, by decide, by decide, h.1, h.2⟩

/-- C1: for every byte value b in 0x80-0xFF, the legacy charset table
returns exactly the fixed documented code page 437 Unicode scalar for b
(the 128 documented pairs, checked exhaustively). -/
theorem cp437_high_matches_documented (b : Nat) (h1 : 0x80 ≤ b) (h2 : b ≤ 0xFF) :
    cp437_to_unicode b = cp437_high_documented.getD (b - 0x80) 0 := by
  have key : ∀ b' < 0x100, 0x80 ≤ b' →
      cp437_to_unicode b' = cp437_high_documented.getD (b' - 0x80) 0 := by decide
  exact key b (by omega) h1

theorem cp437_high_matches_documented_witness :
    0x80 ≤ 0x81 ∧ 0x81 ≤ 0xFF ∧
      cp437_to_unicode 0x81 = cp437_high_documented.getD (0x81 - 0x80) 0 :=
  ⟨by decide, by decide, cp437_high_matches_documented 0x81 (by decide) (by decide)⟩

/-- C2: for every byte value b in 0x20-0x7E (printable ASCII) and for
b = 0x0A (newline), the legacy charset table returns b itself. -/
theorem cp437_ascii_identity (b : Nat)
    (h : (0x20 ≤ b ∧ b ≤ 0x7E) ∨ b = 0x0A) : cp437_to_unicode b = b := by
  rcases h with ⟨h1, h2⟩ | rfl
  · have key : ∀ b' < 0x7F, 0x20 ≤ b' → cp437_to_unicode b' = b' := by decide
    exact key b (by omega) h1
  · decide

theorem cp437_ascii_identity_witness :
    ((0x20 ≤ 0x41 ∧ 0x41 ≤ 0x7E) ∨ (0x41 : Nat) = 0x0A) ∧ cp437_to_unicode 0x41 = 0x41 :=
  ⟨Or.inl ⟨by decide, by decide⟩,
    cp437_ascii_identity 0x41 (Or.inl ⟨by decide, by decide⟩)⟩

/-- C10 counterexample: the table is not idempotent on converted
messages.  Byte 0x80 maps to scalar 0xC7, but 0xC7 is itself an
explicit case of the table (a box-drawing glyph), so remapping an
already-converted scalar changes it again. -/
theorem cp437_double_apply_counterexample :
    cp437_to_unicode 0x80 = 0xC7 ∧ cp437_to_unicode (cp437_to_unicode 0x80) = 0x255F := by
  decide

/-- C10 (amended): the mapping is total over all scalar inputs and
returns every input above 0xFF unchanged; but applying the table to an
already-converted message is not idempotent, because converted scalars
at or below 0xFF (such as 0x80's image 0xC7) have explicit cases of
their own and are remapped again. -/
theorem cp437_total_identity_above_ff :
    (∀ c : Nat, 0xFF < c → cp437_to_unicode c = c) ∧
      cp437_to_unicode (cp437_to_unicode 0x80) ≠ cp437_to_unicode 0x80 := by
  constructor
  · intro c hc
    exact cp437_id_of_ge c (by omega)
  · decide


/-! ## The error boundary and the driver -/

/-- C3 counterexample: the internal-consistency error is not fatal to
the run.  With a first file whose per-file body raises the
size-mismatch error and a second ordinary file, `main`'s loop still
processes the second file — the first is reported through the catch
handler of `process_file` as a `can't open` message — and the process
exits 0. -/
theorem size_mismatch_not_fatal :
    runBodies [Except.error CheckErr.sizeMismatch, Except.ok []] =
      ([FileReport.cantOpen, FileReport.output []], 0) := rfl

/-- C3 (amended): when the split line counts of the original and the
converted message differ, `compare_and_report` fails with the
internal-consistency error, abandoning that file's comparison; but the
thrown error is an exception caught by the same per-file
`catch (const std::exception &)` handler as parse failures and reported
to the error stream, and the run is not aborted: every file is
processed and the exit status stays 0. -/
theorem size_mismatch_caught_per_file :
    (∀ m1 m2 : List Nat, (split m1).length ≠ (split m2).length →
        compare_and_report m1 m2 = Except.error CheckErr.sizeMismatch) ∧
      catchBoundary (Except.error CheckErr.sizeMismatch) = FileReport.cantOpen ∧
      ∀ bodies : List (Except CheckErr (List (List Nat))),
        (runBodies bodies).1.length = bodies.length ∧ (runBodies bodies).2 = 0 := by
  refine ⟨?_, rfl, ?_⟩
  · intro m1 m2 hne
    simp only [compare_and_report]
    rw [if_pos hne]
  · intro bodies
    exact ⟨by simp [runBodies], rfl⟩

theorem size_mismatch_caught_per_file_witness :
    (split [0x0A]).length ≠ (split ([] : List Nat)).length ∧
      compare_and_report [0x0A] [] = Except.error CheckErr.sizeMismatch :=
  ⟨by decide, size_mismatch_caught_per_file.1 [0x0A] [] (by decide)⟩

/-- C6 counterexample: a message whose raw bytes are an ASCII byte, the
raw byte 0x81 and another ASCII byte is not valid UTF-8 (0x81 is a lone
continuation byte), so `check_messages` fails decoding it — the codec
throws, no output row is produced for that file, and the per-file
handler reports it to the error stream instead. -/
theorem raw_byte_message_decode_fails :
    check_messages [0x61, 0x81, 0x62] = Except.error CheckErr.decodeError ∧
      process_file (Except.ok [0x61, 0x81, 0x62]) = FileReport.cantOpen := by
  constructor
  · rfl
  · rfl

/-- C6 (amended): for a single-line message whose decoded codepoints
are an ASCII character, the codepoint 0x81 and another ASCII character
(UTF-8 bytes 0x61 0xC2 0x81 0x62), `check_messages` produces exactly
one two-column row: the original line's bytes, then padding spaces up
to column 80 (the line counts as 3 units), then the separator bytes of
`" | "`, then the converted line rendering U+00FC in UTF-8 (0xC3 0xBC). -/
theorem mapped_byte_output_row :
    check_messages [0x61, 0xC2, 0x81, 0x62] =
      Except.ok [[0x61, 0xC2, 0x81, 0x62] ++ List.replicate 77 0x20 ++
        (0x20 :: 0x7C :: 0x20 :: [0x61, 0xC3, 0xBC, 0x62])] := by
  rfl

/-- C7: the process always exits with status 0 after attempting every
input file; a failure on one file — an unparseable file or a codec
error such as a message that is not valid UTF-8 — becomes a `can't
open` report on the error stream and neither prevents the remaining
files from being processed nor changes the exit status. -/
theorem run_exits_success :
    (∀ files : List (Except ParseErr (List Nat)),
        (run files).2 = 0 ∧ (run files).1.length = files.length) ∧
      process_file (Except.error ParseErr.unparseable) = FileReport.cantOpen ∧
      process_file (Except.ok [0x81]) = FileReport.cantOpen := by
  refine ⟨?_, rfl, by rfl⟩
  intro files
  exact ⟨rfl, by simp [run]⟩
